import Mathlib

/-!
Verification of the text-generation tutorial script
(`Experts_tutorial/Text/text_generation.py`) and the functional-API guide
(`guide/keras/functional.py`).

The scripts are shallowly embedded: the pure text-processing helpers become
Lean functions on `List Char` / `List Nat`; Python dictionaries become
fold-built lookup functions; fallible dictionary lookups return `Option`;
the neural network's forward pass and the categorical sampler are abstracted
as an oracle function passed to `generate_text`, only its output-range being
relevant to the claims.
-/

/-- Embedding of `split_input_target` (text_generation.py, lines 109-112):
`input_text = chunk[:-1]`, `target_text = chunk[1:]`. -/
def split_input_target (chunk : List Nat) : List Nat × List Nat :=
  (chunk.dropLast, chunk.tail)

/-- Embedding of `vocab = sorted(set(text))` (text_generation.py, line 42):
the distinct characters of the corpus, in ascending order.  `dedup` realises
`set(text)` (the distinct characters) and `insertionSort` realises
`sorted`. -/
def vocab (text : List Char) : List Char :=
  List.insertionSort (· ≤ ·) text.dedup

/-- Embedding of `vocab_size = len(vocab)` (text_generation.py, line 157). -/
def vocab_size (text : List Char) : Nat :=
  (vocab text).length

/-- One Python-dict insertion: a later insertion of an existing key
overwrites the earlier value. -/
def dictInsert (d : Char → Option Nat) (p : Char × Nat) : Char → Option Nat :=
  fun c => if c = p.1 then some p.2 else d c

/-- A Python dict built by inserting the listed key/value pairs in order,
starting from the empty dict (lookup of an absent key yields `none`,
modelling `KeyError`). -/
def dictOfPairs (ps : List (Char × Nat)) : Char → Option Nat :=
  ps.foldl dictInsert (fun _ => none)

/-- Embedding of `char2idx = {u: i for i, u in enumerate(vocab)}`
(text_generation.py, line 53): the dict maps the character `u` at position
`i` of `vocab` to `i`.  Lookup of a character not in `vocab` is `none`
(a `KeyError` in Python). -/
def char2idx (text : List Char) : Char → Option Nat :=
  dictOfPairs ((vocab text).enum.map (fun p => (p.2, p.1)))

/-- Embedding of `idx2char = np.array(vocab)` indexed at `i`
(text_generation.py, line 54): position `i` of `vocab`.  All uses in the
script are in range; out-of-range indices return a junk default. -/
def idx2char (text : List Char) (i : Nat) : Char :=
  (vocab text).getD i 'a'

/-- Left-to-right evaluation of a Python list comprehension whose body is a
fallible dict lookup: the whole comprehension fails (raises) as soon as one
lookup fails. -/
def listMapOpt (f : Char → Option Nat) : List Char → Option (List Nat)
  | [] => some []
  | c :: cs =>
    match f c, listMapOpt f cs with
    | some v, some vs => some (v :: vs)
    | _, _ => none

/-- Embedding of `text_as_int = np.array([char2idx[c] for c in text])`
(text_generation.py, line 56). -/
def text_as_int (text : List Char) : Option (List Nat) :=
  listMapOpt (char2idx text) text

/-- Embedding of `seq_length = 100` (text_generation.py, line 89). -/
def seq_length : Nat := 100

/-- Structural-recursion engine for `batch(n, drop_remainder=True)`: the
fuel argument only bounds the recursion depth and is set to `l.length` in
`batchDrop` below, which always suffices. -/
def batchDropFuel {α : Type} (n : Nat) : Nat → List α → List (List α)
  | 0, _ => []
  | fuel + 1, l =>
    if 0 < n ∧ n ≤ l.length then
      l.take n :: batchDropFuel n fuel (l.drop n)
    else []

/-- Embedding of `dataset.batch(n, drop_remainder=True)` on a stream of
elements: successive chunks of exactly `n` elements, any final partial chunk
dropped. -/
def batchDrop {α : Type} (n : Nat) (l : List α) : List (List α) :=
  batchDropFuel n l.length l

/-- Embedding of `sequences = char_dataset.batch(seq_length + 1,
drop_remainder=True)` (text_generation.py, line 100), on the stream of
character indices. -/
def sequences (ints : List Nat) : List (List Nat) :=
  batchDrop (seq_length + 1) ints

/-- Embedding of `dataset = sequences.map(split_input_target)`
(text_generation.py, line 115), composed with the vectorization that
produces the character stream (`Option` because vectorization is fallible
in general). -/
def dataset (text : List Char) : Option (List (List Nat × List Nat)) :=
  Option.map (fun ints => (sequences ints).map split_input_target)
    (text_as_int text)

/-- Embedding of `num_generate = 1000` (text_generation.py, line 314). -/
def num_generate : Nat := 1000

/-- The body of the generation loop (text_generation.py, lines 330-343),
with the trained network's forward pass plus the categorical sampling of
`tf.random.categorical` on the temperature-scaled logits abstracted as the
oracle `modelSample` mapping the current input tensor to the sampled index:
each iteration samples `predicted_id` from the model on `input_eval`,
records `idx2char[predicted_id]`, and feeds `[predicted_id]` back as the
next `input_eval`. -/
def genLoop (modelSample : List Nat → Nat) (text : List Char) :
    Nat → List Nat → List Char
  | 0, _ => []
  | n + 1, input_eval =>
    let predicted_id := modelSample input_eval
    idx2char text predicted_id :: genLoop modelSample text n [predicted_id]

/-- Embedding of `generate_text` (text_generation.py, lines 310-345):
vectorize `start_string` through `char2idx` (a `KeyError`, i.e. `none`, if
some character is missing), run the sampling loop `num_generate` times, and
return `start_string` concatenated with the generated characters. -/
def generate_text (modelSample : List Nat → Nat) (text : List Char)
    (start_string : List Char) : Option (List Char) :=
  match listMapOpt (char2idx text) start_string with
  | none => none
  | some input_eval =>
    some (start_string ++ genLoop modelSample text num_generate input_eval)

/- ### Basic facts about the vocabulary -/

theorem mem_vocab_iff (text : List Char) (c : Char) :
    c ∈ vocab text ↔ c ∈ text := by
  unfold vocab
  rw [(List.perm_insertionSort (· ≤ ·) text.dedup).mem_iff, List.mem_dedup]

theorem vocab_nodup (text : List Char) : (vocab text).Nodup := by
  unfold vocab
  rw [(List.perm_insertionSort (· ≤ ·) text.dedup).nodup_iff]
  exact List.nodup_dedup text

/- ### Facts about dict building -/

theorem foldl_dictInsert_of_notmem (ps : List (Char × Nat)) (d : Char → Option Nat)
    (c : Char) (h : ∀ p ∈ ps, p.1 ≠ c) :
    ps.foldl dictInsert d c = d c := by
  induction ps generalizing d with
  | nil => rfl
  | cons p ps ih =>
    rw [List.foldl_cons, ih (dictInsert d p) (fun q hq => h q (List.mem_cons_of_mem p hq))]
    have hne : c ≠ p.1 := fun he => h p (List.mem_cons_self p ps) he.symm
    unfold dictInsert
    rw [if_neg hne]

theorem foldl_dictInsert_of_mem (ps : List (Char × Nat)) (d : Char → Option Nat)
    (c : Char) (v : Nat) (hnd : (ps.map Prod.fst).Nodup) (hm : (c, v) ∈ ps) :
    ps.foldl dictInsert d c = some v := by
  induction ps generalizing d with
  | nil => cases hm
  | cons p ps ih =>
    rw [List.map_cons, List.nodup_cons] at hnd
    rw [List.foldl_cons]
    rcases List.mem_cons.mp hm with he | hm2
    · have hk : ∀ q ∈ ps, q.1 ≠ c := by
        intro q hq hqc
        apply hnd.1
        have hp1 : p.1 = c := by rw [← he]
        rw [hp1, ← hqc]
        exact List.mem_map_of_mem Prod.fst hq
      rw [foldl_dictInsert_of_notmem ps _ c hk, ← he]
      unfold dictInsert
      rw [if_pos rfl]
    · exact ih (dictInsert d p) hnd.2 hm2

theorem char2idx_get (text : List Char) (i : Nat) (h : i < (vocab text).length) :
    char2idx text ((vocab text).get ⟨i, h⟩) = some i := by
  unfold char2idx dictOfPairs
  apply foldl_dictInsert_of_mem
  · rw [List.map_map]
    have he : (Prod.fst ∘ fun p : Nat × Char => (p.2, p.1)) = Prod.snd := rfl
    rw [he, List.enum_map_snd]
    exact vocab_nodup text
  · exact List.mem_map.mpr ⟨(i, (vocab text).get ⟨i, h⟩),
      List.mem_enum_iff_getElem?.mpr (by simp), rfl⟩

theorem char2idx_eq_none (text : List Char) (c : Char) (h : c ∉ text) :
    char2idx text c = none := by
  unfold char2idx dictOfPairs
  apply foldl_dictInsert_of_notmem
  intro p hp hpc
  rcases List.mem_map.mp hp with ⟨q, hq, hqp⟩
  apply h
  rw [← mem_vocab_iff text c, ← hpc, ← hqp]
  have hget := List.mem_enum_iff_getElem?.mp hq
  exact List.getElem?_mem hget

theorem char2idx_isSome_of_mem (text : List Char) (c : Char) (h : c ∈ text) :
    ∃ i : Nat, i < (vocab text).length ∧
      char2idx text c = some i ∧ idx2char text i = c := by
  have hv : c ∈ vocab text := (mem_vocab_iff text c).mpr h
  rcases List.mem_iff_get.mp hv with ⟨n, hn⟩
  refine ⟨n.1, n.2, by rw [← hn]; exact char2idx_get text n.1 n.2, ?_⟩
  unfold idx2char
  rw [List.getD_eq_getElem (vocab text) 'a' n.2, ← hn]
  simp

/- ### Claim C1 -/

/-- Claim C1: for every non-empty chunk, `split_input_target` returns the
chunk without its last element paired with the chunk without its first
element; both components have length `len(chunk) - 1`, the input agrees with
the chunk positionwise, and the target at position `i` is `chunk[i+1]`. -/
theorem split_input_target_spec (chunk : List Nat) (hne : chunk ≠ []) :
    (split_input_target chunk).1 = chunk.dropLast ∧
    (split_input_target chunk).2 = chunk.tail ∧
    (split_input_target chunk).1.length = chunk.length - 1 ∧
    (split_input_target chunk).2.length = chunk.length - 1 ∧
    (∀ i : Nat, ∀ _ : i < chunk.length - 1,
      (split_input_target chunk).1.getD i 0 = chunk.getD i 0 ∧
      (split_input_target chunk).2.getD i 0 = chunk.getD (i + 1) 0) := by
  refine ⟨rfl, rfl, List.length_dropLast chunk, List.length_tail chunk, ?_⟩
  intro i hi
  have hlen : 0 < chunk.length := List.length_pos.mpr hne
  have h1 : i < chunk.dropLast.length := by
    rw [List.length_dropLast]; exact hi
  have h2 : i < chunk.tail.length := by
    rw [List.length_tail]; exact hi
  have hc : i < chunk.length := lt_of_lt_of_le hi (Nat.sub_le _ _)
  have hc1 : i + 1 < chunk.length := by omega
  constructor
  · show chunk.dropLast.getD i 0 = chunk.getD i 0
    rw [List.getD_eq_getElem chunk.dropLast 0 h1, List.getD_eq_getElem chunk 0 hc]
    exact List.getElem_dropLast chunk i h1
  · show chunk.tail.getD i 0 = chunk.getD (i + 1) 0
    rw [List.getD_eq_getElem chunk.tail 0 h2, List.getD_eq_getElem chunk 0 hc1]
    exact List.getElem_tail chunk i h2

/-- Witness for C1 at the concrete chunk `[7, 8, 9]`. -/
theorem split_input_target_spec_witness :
    (split_input_target [7, 8, 9]).1 = [7, 8, 9].dropLast ∧
    (split_input_target [7, 8, 9]).2 = [7, 8, 9].tail ∧
    (split_input_target [7, 8, 9]).1.length = [7, 8, 9].length - 1 ∧
    (split_input_target [7, 8, 9]).2.length = [7, 8, 9].length - 1 ∧
    (∀ i : Nat, ∀ _ : i < [7, 8, 9].length - 1,
      (split_input_target [7, 8, 9]).1.getD i 0 = [7, 8, 9].getD i 0 ∧
      (split_input_target [7, 8, 9]).2.getD i 0 = [7, 8, 9].getD (i + 1) 0) :=
  split_input_target_spec [7, 8, 9] (by decide)

/- ### Claim C2 -/

/-- Claim C2: the vocabulary size equals the number of distinct characters
occurring in the text, for every text (stated both as the cardinality of the
set of characters and as the length of the duplicate-free sublist). -/
theorem vocab_size_spec (text : List Char) :
    vocab_size text = text.toFinset.card ∧
    vocab_size text = text.dedup.length := by
  have h : vocab_size text = text.dedup.length := by
    unfold vocab_size vocab
    exact (List.perm_insertionSort (· ≤ ·) text.dedup).length_eq
  exact ⟨by rw [h, List.card_toFinset], h⟩

/- ### Claim C3 -/

/-- Claim C3: `char2idx` and `idx2char` form a bijection between the
vocabulary characters and the indices `0 .. len(vocab) - 1`: looking a
vocabulary character up in `char2idx` yields an in-range index that
`idx2char` maps back to the character, and looking up the character at any
in-range index of `idx2char` in `char2idx` gives back that index. -/
theorem char_lookup_bijection (text : List Char) :
    (∀ c ∈ vocab text, ∃ i : Nat,
      char2idx text c = some i ∧ i < vocab_size text ∧ idx2char text i = c) ∧
    (∀ i : Nat, i < vocab_size text → char2idx text (idx2char text i) = some i) := by
  constructor
  · intro c hc
    rcases char2idx_isSome_of_mem text c ((mem_vocab_iff text c).mp hc) with
      ⟨i, hlt, heq, hback⟩
    exact ⟨i, heq, hlt, hback⟩
  · intro i hlt
    have hg : idx2char text i = (vocab text).get ⟨i, hlt⟩ := by
      unfold idx2char
      rw [List.getD_eq_getElem (vocab text) 'a' hlt]
      simp
    rw [hg]
    exact char2idx_get text i hlt

/-- Witness for C3 on the concrete corpus `"ab"` (characters `a`, `b`),
instantiating both directions of the bijection. -/
theorem char_lookup_bijection_witness :
    (∃ i : Nat, char2idx ['a', 'b'] 'b' = some i ∧ i < vocab_size ['a', 'b'] ∧
      idx2char ['a', 'b'] i = 'b') ∧
    char2idx ['a', 'b'] (idx2char ['a', 'b'] 0) = some 0 :=
  ⟨(char_lookup_bijection ['a', 'b']).1 'b' (by decide),
   (char_lookup_bijection ['a', 'b']).2 0 (by decide)⟩

/- ### Claim C5 -/

theorem listMapOpt_eq_some (f : Char → Option Nat) (l : List Char)
    (h : ∀ c ∈ l, (f c).isSome) :
    ∃ vs : List Nat, listMapOpt f l = some vs ∧ vs.length = l.length ∧
      ∀ i : Nat, ∀ _ : i < l.length, f (l.getD i 'a') = some (vs.getD i 0) := by
  induction l with
  | nil => exact ⟨[], rfl, rfl, fun i hi => absurd hi (by simp)⟩
  | cons c cs ih =>
    rcases Option.isSome_iff_exists.mp (h c (List.mem_cons_self c cs)) with ⟨v, hv⟩
    rcases ih (fun d hd => h d (List.mem_cons_of_mem c hd)) with ⟨vs, hvs, hlen, hidx⟩
    refine ⟨v :: vs, ?_, by simp [hlen], ?_⟩
    · unfold listMapOpt
      rw [hv, hvs]
    · intro i hi
      cases i with
      | zero => simpa using hv
      | succ j =>
        rw [List.getD_cons_succ, List.getD_cons_succ]
        exact hidx j (by simpa using hi)

theorem listMapOpt_eq_none (f : Char → Option Nat) (l : List Char) (c : Char)
    (hc : c ∈ l) (hf : f c = none) :
    listMapOpt f l = none := by
  induction l with
  | nil => cases hc
  | cons d ds ih =>
    rcases List.mem_cons.mp hc with he | hm
    · unfold listMapOpt
      rw [← he, hf]
    · unfold listMapOpt
      rw [ih hm]
      cases f d <;> rfl

/-- Claim C5: the character-to-index vectorization is total on the corpus:
every character of `text` is a key of `char2idx`, the comprehension building
`text_as_int` never fails, and positionwise `text_as_int[i]` is exactly the
`char2idx` lookup of `text[i]`. -/
theorem text_as_int_spec (text : List Char) :
    (∀ c ∈ text, (char2idx text c).isSome) ∧
    (∃ ints : List Nat, text_as_int text = some ints ∧
      ints.length = text.length ∧
      ∀ i : Nat, ∀ _ : i < text.length,
        char2idx text (text.getD i 'a') = some (ints.getD i 0)) := by
  have htot : ∀ c ∈ text, (char2idx text c).isSome := by
    intro c hc
    rcases char2idx_isSome_of_mem text c hc with ⟨i, _, heq, _⟩
    rw [heq]
    rfl
  exact ⟨htot, listMapOpt_eq_some (char2idx text) text htot⟩

/-- Witness for C5 on the concrete corpus `"aba"`. -/
theorem text_as_int_spec_witness :
    (char2idx ['a', 'b', 'a'] 'b').isSome ∧
    (∃ ints : List Nat, text_as_int ['a', 'b', 'a'] = some ints ∧
      ints.length = (['a', 'b', 'a'] : List Char).length ∧
      ∀ i : Nat, ∀ _ : i < (['a', 'b', 'a'] : List Char).length,
        char2idx ['a', 'b', 'a'] ((['a', 'b', 'a'] : List Char).getD i 'a') =
          some (ints.getD i 0)) :=
  ⟨(text_as_int_spec ['a', 'b', 'a']).1 'b' (by decide),
   (text_as_int_spec ['a', 'b', 'a']).2⟩

/- ### Claim C6 -/

theorem batchDropFuel_spec {α : Type} (n : Nat) (hn : 0 < n) :
    ∀ (fuel : Nat) (l : List α), l.length ≤ fuel →
      (batchDropFuel n fuel l).length = l.length / n ∧
      ∀ chunk ∈ batchDropFuel n fuel l, chunk.length = n := by
  intro fuel
  induction fuel with
  | zero =>
    intro l hl
    have h0 : l.length = 0 := Nat.le_zero.mp hl
    constructor
    · show ([] : List (List α)).length = l.length / n
      rw [h0, Nat.div_eq, if_neg (by omega)]
      rfl
    · intro chunk hc
      cases hc
  | succ fuel ih =>
    intro l hl
    by_cases hcond : 0 < n ∧ n ≤ l.length
    · have hunf : batchDropFuel n (fuel + 1) l
          = if 0 < n ∧ n ≤ l.length then
              l.take n :: batchDropFuel n fuel (l.drop n)
            else [] := rfl
      have hstep : batchDropFuel n (fuel + 1) l
          = l.take n :: batchDropFuel n fuel (l.drop n) := by
        rw [hunf, if_pos hcond]
      have hdl : (l.drop n).length ≤ fuel := by
        rw [List.length_drop]
        omega
      rcases ih (l.drop n) hdl with ⟨hcount, hmem⟩
      constructor
      · rw [hstep, List.length_cons, hcount, List.length_drop,
          Nat.div_eq l.length n, if_pos hcond]
      · intro chunk hc
        rw [hstep] at hc
        rcases List.mem_cons.mp hc with he | hm
        · rw [he, List.length_take]
          omega
        · exact hmem chunk hm
    · have hunf : batchDropFuel n (fuel + 1) l
          = if 0 < n ∧ n ≤ l.length then
              l.take n :: batchDropFuel n fuel (l.drop n)
            else [] := rfl
      have hstep : batchDropFuel n (fuel + 1) l = [] := by
        rw [hunf, if_neg hcond]
      constructor
      · rw [hstep, Nat.div_eq l.length n, if_neg hcond]
        rfl
      · intro chunk hc
        rw [hstep] at hc
        cases hc

/-- Claim C6: every (input, target) example the dataset yields has input and
target of length exactly `seq_length = 100`; batching the character stream
into chunks of `seq_length + 1 = 101` with `drop_remainder=True` yields
exactly `len(text) / 101` full chunks. -/
theorem dataset_shapes (text : List Char) :
    ∃ d : List (List Nat × List Nat), dataset text = some d ∧
      d.length = text.length / (seq_length + 1) ∧
      ∀ p ∈ d, p.1.length = seq_length ∧ p.2.length = seq_length := by
  rcases (text_as_int_spec text).2 with ⟨ints, hints, hlen, _⟩
  have hspec := batchDropFuel_spec (seq_length + 1) (by omega) ints.length ints
    (Nat.le_refl _)
  refine ⟨(sequences ints).map split_input_target, ?_, ?_, ?_⟩
  · unfold dataset
    rw [hints]
    rfl
  · rw [List.length_map]
    unfold sequences batchDrop
    rw [hspec.1, hlen]
  · intro p hp
    rcases List.mem_map.mp hp with ⟨chunk, hchunk, hpe⟩
    have hc : chunk.length = seq_length + 1 := hspec.2 chunk hchunk
    rw [← hpe]
    constructor
    · show chunk.dropLast.length = seq_length
      rw [List.length_dropLast, hc]
      omega
    · show chunk.tail.length = seq_length
      rw [List.length_tail, hc]
      omega

/- ### Claim C4 -/

theorem genLoop_length (modelSample : List Nat → Nat) (text : List Char) :
    ∀ (n : Nat) (input_eval : List Nat),
      (genLoop modelSample text n input_eval).length = n := by
  intro n
  induction n with
  | zero => intro input_eval; rfl
  | succ k ih =>
    intro input_eval
    unfold genLoop
    rw [List.length_cons, ih]

theorem genLoop_mem_vocab (modelSample : List Nat → Nat) (text : List Char)
    (hm : ∀ ie : List Nat, modelSample ie < vocab_size text) :
    ∀ (n : Nat) (input_eval : List Nat),
      ∀ c ∈ genLoop modelSample text n input_eval, c ∈ vocab text := by
  intro n
  induction n with
  | zero => intro input_eval c hc; cases hc
  | succ k ih =>
    intro input_eval c hc
    unfold genLoop at hc
    rcases List.mem_cons.mp hc with he | hmem
    · have hlt : modelSample input_eval < (vocab text).length :=
        hm input_eval
      rw [he]
      unfold idx2char
      rw [List.getD_eq_getElem (vocab text) 'a' hlt]
      exact List.getElem_mem hlt
    · exact ih [modelSample input_eval] c hmem

/-- Claim C4: for a start string whose characters are all in the vocabulary
and a model/sampler oracle producing indices below `vocab_size`,
`generate_text` succeeds and returns the start string followed by exactly
`num_generate = 1000` sampled characters, each a vocabulary character; the
result has length `len(start_string) + 1000` and starts with
`start_string`. -/
theorem generate_text_spec (modelSample : List Nat → Nat)
    (text start_string : List Char)
    (hs : ∀ c ∈ start_string, c ∈ vocab text)
    (hm : ∀ ie : List Nat, modelSample ie < vocab_size text) :
    ∃ out : List Char, generate_text modelSample text start_string = some out ∧
      out.length = start_string.length + num_generate ∧
      out.take start_string.length = start_string ∧
      ∀ c ∈ out.drop start_string.length, c ∈ vocab text := by
  have htot : ∀ c ∈ start_string, (char2idx text c).isSome := by
    intro c hc
    rcases char2idx_isSome_of_mem text c ((mem_vocab_iff text c).mp (hs c hc))
      with ⟨i, _, heq, _⟩
    rw [heq]
    rfl
  rcases listMapOpt_eq_some (char2idx text) start_string htot with
    ⟨input_eval, hie, _, _⟩
  refine ⟨start_string ++ genLoop modelSample text num_generate input_eval,
    ?_, ?_, ?_, ?_⟩
  · unfold generate_text
    rw [hie]
  · rw [List.length_append, genLoop_length]
  · exact List.take_left start_string _
  · rw [List.drop_left start_string _]
    exact genLoop_mem_vocab modelSample text hm num_generate input_eval

/-- Witness for C4: concrete corpus `"ab"`, start string `"a"`, and the
constant-zero sampling oracle. -/
theorem generate_text_spec_witness :
    ∃ out : List Char,
      generate_text (fun _ => 0) ['a', 'b'] ['a'] = some out ∧
      out.length = (['a'] : List Char).length + num_generate ∧
      out.take (['a'] : List Char).length = ['a'] ∧
      ∀ c ∈ out.drop (['a'] : List Char).length, c ∈ vocab ['a', 'b'] :=
  generate_text_spec (fun _ => 0) ['a', 'b'] ['a'] (by decide)
    (fun _ => (by decide : (0 : Nat) < vocab_size ['a', 'b']))

/- ### Claim C8 -/

/-- Claim C8: a failing `char2idx` lookup in `generate_text` is not caught
anywhere: for any start string containing a character outside the
vocabulary, the lookup error propagates and `generate_text` produces no
result (`none` models the uncaught `KeyError`). -/
theorem generate_text_keyerror (modelSample : List Nat → Nat)
    (text start_string : List Char) (c : Char)
    (hc : c ∈ start_string) (hnv : c ∉ vocab text) :
    generate_text modelSample text start_string = none := by
  have hnone : char2idx text c = none :=
    char2idx_eq_none text c (fun h => hnv ((mem_vocab_iff text c).mpr h))
  unfold generate_text
  rw [listMapOpt_eq_none (char2idx text) start_string c hc hnone]

/-- Witness for C8: the start string `"b"` against the corpus `"a"` (whose
vocabulary is `{a}`) makes `generate_text` fail. -/
theorem generate_text_keyerror_witness :
    generate_text (fun _ => 0) ['a'] ['b'] = none :=
  generate_text_keyerror (fun _ => 0) ['a'] ['b'] 'b' (by decide) (by decide)

/- ### Claim C7 -/

/-- Embedding of `checkpoint_dir = './training_checkpoints'`
(text_generation.py, line 253). -/
def checkpoint_dir : String := "./training_checkpoints"

/-- The checkpoint file path produced by formatting the checkpoint name
pattern (text_generation.py, line 255) with a concrete epoch number. -/
def ckptPath (epoch : Nat) : String :=
  checkpoint_dir ++ "/ckpt_" ++ toString epoch

/-- Embedding of `EPOCHS = 10` (text_generation.py, lines 266 and 398). -/
def EPOCHS : Nat := 10

/-- One file-write effect of the script: the path written and whether only
weights are serialized. -/
structure SaveEvent where
  path : String
  weights_only : Bool
deriving DecidableEq

/-- Modelled from the spec: the write behaviour of the
`tf.keras.callbacks.ModelCheckpoint` configured at text_generation.py lines
257-259 is framework code absent from the repository; per the spec it
writes "checkpoint files ... to a local directory in the framework's native
weight-serialization format", one weights-only file per `fit` epoch at the
configured path (the pattern formatted with the 1-based epoch number). -/
def fitSaves : List SaveEvent :=
  (List.range EPOCHS).map (fun epoch => ⟨ckptPath (epoch + 1), true⟩)

/-- The 0-based epochs after which the custom training loop saves
(text_generation.py, lines 414-416): those with `(epoch + 1) % 5 == 0`. -/
def customLoopSaveEpochs : List Nat :=
  (List.range EPOCHS).filter (fun epoch => (epoch + 1) % 5 == 0)

/-- The save events of the custom training loop (text_generation.py, lines
400-421): a weights-only save inside the loop after each epoch of
`customLoopSaveEpochs`, plus one final save after the loop reusing the loop
variable's last value `EPOCHS - 1`. -/
def customLoopSaves : List SaveEvent :=
  customLoopSaveEpochs.map (fun epoch => ⟨ckptPath epoch, true⟩)
    ++ [⟨ckptPath (EPOCHS - 1), true⟩]

/-- All file writes the training code performs. -/
def allTrainingSaves : List SaveEvent := fitSaves ++ customLoopSaves

/-- Claim C7: every file written by training is a weights-only checkpoint
under `./training_checkpoints` with a name of the form `ckpt_<epoch>`; the
custom training loop over `EPOCHS = 10` epochs checkpoints exactly after
the epochs whose 1-based number is a multiple of 5 (0-based epochs 4 and
9), plus one final save after the loop. -/
theorem training_saves_spec :
    (∀ s ∈ allTrainingSaves, s.weights_only = true ∧
      ∃ e : Nat, e ≤ EPOCHS ∧ s.path = ckptPath e) ∧
    customLoopSaveEpochs = [4, 9] ∧
    customLoopSaves.length = customLoopSaveEpochs.length + 1 := by
  refine ⟨?_, by decide, by decide⟩
  intro s hs
  rcases List.mem_append.mp hs with hf | hc
  · rcases List.mem_map.mp hf with ⟨e, he, hse⟩
    refine ⟨by rw [← hse], e + 1, ?_, by rw [← hse]⟩
    exact Nat.succ_le_of_lt (List.mem_range.mp he)
  · rcases List.mem_append.mp hc with hc1 | hc2
    · rcases List.mem_map.mp hc1 with ⟨e, he, hse⟩
      have helt : e < EPOCHS := List.mem_range.mp (List.mem_of_mem_filter he)
      exact ⟨by rw [← hse], e, Nat.le_of_lt helt, by rw [← hse]⟩
    · have hse : s = ⟨ckptPath (EPOCHS - 1), true⟩ := by
        simpa using hc2
      exact ⟨by rw [hse], EPOCHS - 1, by omega, by rw [hse]⟩

/- ### Claim C9 -/

/-- Embedding of the `CustomDense` constructor (functional.py, lines
488-490 and 514-517): the layer object stores its `units` argument. -/
structure CustomDense where
  units : Nat

/-- Embedding of the weights created by `CustomDense.build` (functional.py,
lines 492-498 and 519-525): `w` of shape `(input_dim, units)` and `b` of
shape `(units,)`, the shapes carried by the `Fin` index types.  Weight
entries live in a commutative ring standing for the framework's scalars. -/
structure BuiltWeights (input_dim units : Nat) where
  w : Fin input_dim → Fin units → ℤ
  b : Fin units → ℤ

/-- Embedding of `tf.matmul` on rank-2 tensors. -/
def tfMatmul {m n p : Nat} (x : Fin m → Fin n → ℤ) (w : Fin n → Fin p → ℤ) :
    Fin m → Fin p → ℤ :=
  fun i j => ∑ k, x i k * w k j

/-- Embedding of the broadcast `+` of a rank-2 tensor and a rank-1 bias. -/
def tfBiasAdd {m p : Nat} (y : Fin m → Fin p → ℤ) (b : Fin p → ℤ) :
    Fin m → Fin p → ℤ :=
  fun i j => y i j + b j

/-- Embedding of `CustomDense.call` (functional.py, lines 500-501 and
527-528): `tf.matmul(inputs, self.w) + self.b`. -/
def CustomDense.call {input_dim units m : Nat}
    (wts : BuiltWeights input_dim units)
    (inputs : Fin m → Fin input_dim → ℤ) : Fin m → Fin units → ℤ :=
  tfBiasAdd (tfMatmul inputs wts.w) wts.b

/-- Embedding of the second variant's `get_config` (functional.py, lines
530-531): the dict holding the constructor argument. -/
def CustomDense.get_config (layer : CustomDense) : List (String × Nat) :=
  [("units", layer.units)]

/-- The reference Dense-layer computation, written from the spec's words:
the affine map taking each row of the input to its product with the weight
matrix plus the bias. -/
def denseReference {input_dim units m : Nat}
    (w : Fin input_dim → Fin units → ℤ) (b : Fin units → ℤ)
    (x : Fin m → Fin input_dim → ℤ) : Fin m → Fin units → ℤ :=
  fun i j => (∑ k, x i k * w k j) + b j

/-- Claim C9: for every input matrix, `CustomDense.call` computes exactly
the reference Dense-layer affine map `matmul(x, w) + b` on the weights
`build` creates with shapes `(input_dim, units)` and `(units,)`, and the
second variant's `get_config` returns the dict holding the constructor's
`units` argument. -/
theorem customDense_call_spec {input_dim units m : Nat}
    (wts : BuiltWeights input_dim units) (x : Fin m → Fin input_dim → ℤ)
    (layer : CustomDense) :
    CustomDense.call wts x = denseReference wts.w wts.b x ∧
    CustomDense.get_config layer = [("units", layer.units)] :=
  ⟨rfl, rfl⟩

/- ### Claim C10 -/

/-- The framework API-call steps of text_generation.py, named after what
they do. -/
inductive ScriptStep
  | download
  | read_text
  | build_vocab
  | vectorize
  | build_dataset
  | build_model
  | compile_model
  | fit_model
  | generate_step
deriving DecidableEq

/-- The order in which text_generation.py executes its steps (lines 25, 34,
42, 53-56, 88-144, 166-183, 245, 268, 310-348). -/
def scriptOrder : List ScriptStep :=
  [ScriptStep.download, ScriptStep.read_text, ScriptStep.build_vocab,
   ScriptStep.vectorize, ScriptStep.build_dataset, ScriptStep.build_model,
   ScriptStep.compile_model, ScriptStep.fit_model, ScriptStep.generate_step]

/-- The data dependences between the steps: which earlier results each step
reads (the file path, the text, the vocabulary, the vectorized stream, the
model object, the compiled model, the trained weights). -/
def dependsOn : ScriptStep → List ScriptStep
  | ScriptStep.download => []
  | ScriptStep.read_text => [ScriptStep.download]
  | ScriptStep.build_vocab => [ScriptStep.read_text]
  | ScriptStep.vectorize => [ScriptStep.build_vocab, ScriptStep.read_text]
  | ScriptStep.build_dataset => [ScriptStep.vectorize]
  | ScriptStep.build_model => [ScriptStep.build_vocab]
  | ScriptStep.compile_model => [ScriptStep.build_model]
  | ScriptStep.fit_model => [ScriptStep.compile_model, ScriptStep.build_dataset]
  | ScriptStep.generate_step =>
    [ScriptStep.fit_model, ScriptStep.build_model, ScriptStep.build_vocab]

/-- The position of a step in the script's execution order. -/
def stepIndex (s : ScriptStep) : Nat := scriptOrder.indexOf s

/-- Claim C10: the script executes its steps in a fixed linear order —
download, read, vocabulary, vectorize, dataset, model, compile, fit,
generate — no step precedes a step it depends on, and text generation comes
only after training. -/
theorem script_order_spec :
    scriptOrder.Nodup ∧
    (∀ s ∈ scriptOrder, ∀ d ∈ dependsOn s, stepIndex d < stepIndex s) ∧
    stepIndex ScriptStep.fit_model < stepIndex ScriptStep.generate_step := by
  decide
